import Mathlib

/-!
Verification development for the gcn_agg cycle-accurate GCN accelerator
simulator. The definitions below are shallow embeddings of the Rust
sources (src/src/**). Machine integers (`usize`, `u64`) are modelled as
`Nat`: all quantities involved (cycle counts, node indices, byte
addresses) are non-negative and far from overflow in the source's
operating range, and the source's `/` on unsigned integers is `Nat`
floor division. Rust `HashSet<usize>` is modelled as `Finset Nat` (the
source only observes cardinality and membership of these sets).
Operations that can panic in Rust are modelled either with an explicit
failure constructor or with theorems whose hypotheses exclude the
panicking inputs.
-/

namespace GcnAgg

/-- Embedding of `NodeFeatures` (src/src/node_features.rs): per node, the
sorted list of non-zero feature indices. `start_addrs` is derived where
needed. -/
structure NodeFeatures where
  features : List (List Nat)
  deriving DecidableEq, Repr

/-- `NodeFeatures::get_features` (indexing; out-of-range is a Rust panic,
modelled as the empty row and excluded by in-range hypotheses where it
matters). -/
def NodeFeatures.get_features (nf : NodeFeatures) (i : Nat) : List Nat :=
  nf.features.getD i []

/-- `NodeFeatures::start_addrs`: `start_addrs[i]` is the byte offset of node
`i`, each node occupying `4 * |features(i)|` bytes
(src/src/node_features.rs, built in `NodeFeatures::new`). -/
def NodeFeatures.start_addr (nf : NodeFeatures) (i : Nat) : Nat :=
  4 * ((nf.features.take i).map List.length).sum

/- ===================== Aggregator (src/src/accelerator/aggregator.rs) -/
inductive AggregatorState where
  | Idle
  | Working
  | Finished
  deriving DecidableEq, Repr

structure Aggregator where
  sparse_cores : Nat
  sparse_width : Nat
  dense_cores : Nat
  dense_width : Nat
  state : AggregatorState
  current_task_remaining_cycles : Nat
  deriving DecidableEq, Repr

/-- One iteration of the loop in
`Aggregator::get_add_cycle_and_result_sparse`: the accumulator carries
the cycle count so far and the temp set; the step adds
`temp_set.len() + node_features.get_features(i).len()` cycles and unions
the features of input node `i` into the temp set. -/
def sparseAddStep (nf : NodeFeatures) (acc : Nat × Finset Nat) (i : Nat) :
    Nat × Finset Nat :=
  (acc.1 + acc.2.card + (nf.get_features i).length,
   acc.2 ∪ (nf.get_features i).toFinset)

/-- `Aggregator::get_add_cycle_and_result_sparse`
(src/src/accelerator/aggregator.rs:228-247): the temp set starts as the
current content of the output slot; the input nodes are visited in
order; the final slot content is the resulting set (the Rust `HashSet`
is modelled as a `Finset`, which is exactly the information the source
stores back into the slot: a duplicate-free collection). -/
def get_add_cycle_and_result_sparse (nf : NodeFeatures)
    (output_feature : Finset Nat) (input_nodes : List Nat) :
    Nat × Finset Nat :=
  input_nodes.foldl (sparseAddStep nf) (0, output_feature)

/-- Cost recursion written from the spec's words: for each source node `s`
in order, cycles += `|S| + |features(s)|`, and `features(s)` is unioned
into `S`. -/
def specSparseCost (nf : NodeFeatures) : Finset Nat → List Nat → Nat
  | _, [] => 0
  | S, s :: rest =>
      S.card + (nf.get_features s).length
        + specSparseCost nf (S ∪ (nf.get_features s).toFinset) rest

/-- Union of the feature sets of a list of source nodes. -/
def featureUnion (nf : NodeFeatures) : List Nat → Finset Nat
  | [] => ∅
  | s :: rest => (nf.get_features s).toFinset ∪ featureUnion nf rest

/-- The features of scenario S3 (rows of the dense matrix
`0 0 1 0 1 0 / 1 0 0 1 1 1 / 1 1 0 0 0 1` in sparse form). -/
def s3Features : NodeFeatures := ⟨[[2, 4], [0, 3, 4, 5], [0, 1, 5]]⟩

/- ===================== Sparsifier (src/src/accelerator/sparsifier.rs) -/
inductive SparsifierState where
  | Idle
  | Working
  deriving DecidableEq, Repr

structure Sparsifier where
  state : SparsifierState
  remaining_cycle : Nat
  num_cores : Nat
  deriving DecidableEq, Repr

/-- `Sparsifier::new` (src/src/accelerator/sparsifier.rs:38-45). -/
def Sparsifier.new (num_cores : Nat) : Sparsifier :=
  ⟨SparsifierState.Idle, 0, num_cores⟩

/-- `Sparsifier::add_task` (src/src/accelerator/sparsifier.rs:55-63): all
three arguments are ignored by the body. -/
def Sparsifier.add_task (s : Sparsifier) (input_dim input_node_num : Nat)
    (output_feature : NodeFeatures) : Sparsifier :=
  { s with remaining_cycle := 10, state := SparsifierState.Working }

/-- `Sparsifier::add_task_last_layer` (src/src/accelerator/sparsifier.rs:65-68). -/
def Sparsifier.add_task_last_layer (s : Sparsifier) : Sparsifier :=
  { s with remaining_cycle := 1, state := SparsifierState.Working }

/- ================ Memory interface (src/src/accelerator/mem_interface.rs) -/

/-- One logical memory request (`MemWindowIdust`). -/
structure MemWindowIdust (ι : Type) where
  addr_vec : List Nat
  id : ι
  is_write : Bool
  deriving DecidableEq, Repr

/-- The queue-and-bookkeeping state of `MemInterface`. The two `HashMap`
in-flight maps are modelled as association lists; the DRAM oracle
itself is out of scope. -/
structure MemInterface (ι : Type) where
  send_queue : List (MemWindowIdust ι)
  send_size : Nat
  recv_queue : List ι
  recv_size : Nat
  current_waiting_request : List (ι × List Nat)
  current_waiting_mem_request : List (Nat × List ι)
  deriving DecidableEq, Repr

/-- `MemInterface::available` (src/src/accelerator/mem_interface.rs:158-160). -/
def MemInterface.available {ι : Type} (m : MemInterface ι) : Bool :=
  m.send_queue.length < m.send_size

/-- `MemInterface::send` (src/src/accelerator/mem_interface.rs:170-177):
unconditionally pushes the request onto the back of the send queue. -/
def MemInterface.send {ι : Type} (m : MemInterface ι) (id : ι)
    (addr_vec : List Nat) (is_write : Bool) : MemInterface ι :=
  { m with send_queue := m.send_queue ++ [⟨addr_vec, id, is_write⟩] }

/-- A memory interface whose send queue is already at capacity
(`send_size = 1` with one queued request). -/
def memIfFull : MemInterface Nat :=
  ⟨[⟨[0], 0, false⟩], 1, [], 4, [], []⟩

/- ============= Stage buffers (input_buffer.rs, agg_buffer.rs,
   sparsify_buffer.rs, output_buffer.rs). Each buffer is generic in its
   payload type; `cycle` is the rotation at the cycle boundary. -/
inductive InputBufferStatus where
  | Empty
  | WaitingToLoad
  | Loading
  | Reading
  | Ready
  deriving DecidableEq, Repr

structure InputBuffer (α : Type) where
  current_state : InputBufferStatus
  next_state : InputBufferStatus
  current_window : Option α
  next_window : Option α
  deriving DecidableEq, Repr

/-- `InputBuffer::cycle` (src/src/accelerator/input_buffer.rs:43-56): swap
the slots (state and payload) when `current` is Empty and `next` is
non-Empty; otherwise do nothing. -/
def InputBuffer.cycle {α : Type} (b : InputBuffer α) : InputBuffer α :=
  match b.current_state, b.next_state with
  | InputBufferStatus.Empty, InputBufferStatus.Empty => b
  | InputBufferStatus.Empty, _ =>
      { current_state := b.next_state, next_state := b.current_state,
        current_window := b.next_window, next_window := b.current_window }
  | _, _ => b

inductive AggBufferStatus where
  | Empty
  | Writing
  | WaitingToMlp
  | Mlp
  deriving DecidableEq, Repr

/-- `AggBuffer` (src/src/accelerator/agg_buffer.rs): window payload `α`,
temp-aggregation-result payload `β`. -/
structure AggBuffer (α β : Type) where
  current_state : AggBufferStatus
  next_state : AggBufferStatus
  current_window : Option α
  next_window : Option α
  current_temp_result : Option β
  next_temp_result : Option β
  deriving DecidableEq, Repr

/-- `AggBuffer::cycle` (src/src/accelerator/agg_buffer.rs:87-95): swap the
slots (states, windows and temp results) when `current` is WaitingToMlp
and `next` is Empty. -/
def AggBuffer.cycle {α β : Type} (b : AggBuffer α β) : AggBuffer α β :=
  match b.current_state, b.next_state with
  | AggBufferStatus.WaitingToMlp, AggBufferStatus.Empty =>
      { current_state := b.next_state, next_state := b.current_state,
        current_window := b.next_window, next_window := b.current_window,
        current_temp_result := b.next_temp_result,
        next_temp_result := b.current_temp_result }
  | _, _ => b

inductive SparsifyBufferStatus where
  | Empty
  | Writing
  | WaitingToSparsify
  | Sparsifying
  deriving DecidableEq, Repr

structure SparsifyBuffer (α : Type) where
  current_state : SparsifyBufferStatus
  next_state : SparsifyBufferStatus
  current_window : Option α
  next_window : Option α
  deriving DecidableEq, Repr

/-- `SparsifyBuffer::cycle` (src/src/accelerator/sparsify_buffer.rs:50-59). -/
def SparsifyBuffer.cycle {α : Type} (b : SparsifyBuffer α) : SparsifyBuffer α :=
  match b.current_state, b.next_state with
  | SparsifyBufferStatus.WaitingToSparsify, SparsifyBufferStatus.Empty =>
      { current_state := b.next_state, next_state := b.current_state,
        current_window := b.next_window, next_window := b.current_window }
  | _, _ => b

inductive OutputBufferStatus where
  | Empty
  | Writing
  | WaitingToWriteBack
  deriving DecidableEq, Repr

structure OutputBuffer (α : Type) where
  current_state : OutputBufferStatus
  next_state : OutputBufferStatus
  current_window : Option α
  next_window : Option α
  deriving DecidableEq, Repr

/-- `OutputBuffer::cycle` (src/src/accelerator/output_buffer.rs:46-52). -/
def OutputBuffer.cycle {α : Type} (b : OutputBuffer α) : OutputBuffer α :=
  match b.current_state, b.next_state with
  | OutputBufferStatus.WaitingToWriteBack, OutputBufferStatus.Empty =>
      { current_state := b.next_state, next_state := b.current_state,
        current_window := b.next_window, next_window := b.current_window }
  | _, _ => b

/- ============== Window data model (src/src/accelerator/sliding_window.rs) -/

/-- `WindowId` as used by the sliding-window iterator. -/
structure WindowId where
  layer_id : Nat
  output_id : Nat
  input_id : Nat
  deriving DecidableEq, Repr

structure OutputWindow where
  start_output_index : Nat
  end_output_index : Nat
  task_id : WindowId
  output_node_dim : Nat
  input_node_dim : Nat
  final_window : Bool
  final_layer : Bool
  deriving DecidableEq, Repr

/-- `OutputWindow::get_output_len`. -/
def OutputWindow.get_output_len (w : OutputWindow) : Nat :=
  w.end_output_index - w.start_output_index

/-- `InputWindow`. The per-output-node edge ranges (`tasks`, a vector of
`BTreeSet` range iterators in the source) are modelled as plain lists
of source-node ids. -/
structure InputWindow where
  task_id : WindowId
  tasks : List (List Nat)
  start_output_index : Nat
  start_input_index : Nat
  end_output_index : Nat
  end_input_index : Nat
  output_window : OutputWindow
  is_last_row : Bool
  deriving DecidableEq, Repr

/-- Dense branch of `Aggregator::add_task`
(src/src/accelerator/aggregator.rs:99-113): `num_add` is the total
number of edges over the window's task ranges; the cycle count is the
floor division of `num_add * input_dim` by `dense_width * dense_cores`,
then doubled. Division by zero (zero cores or width) panics in Rust and
is excluded by hypotheses where relevant. -/
def Aggregator.add_task_dense (a : Aggregator) (task : InputWindow) : Aggregator :=
  let num_add := (task.tasks.map List.length).sum
  let cycles := num_add * task.output_window.input_node_dim
      / (a.dense_width * a.dense_cores)
  { a with state := AggregatorState.Working,
           current_task_remaining_cycles := cycles * 2 }

/-- An aggregator with 1 dense core of width 2 (all other fields
irrelevant to the dense cost). -/
def aggEx : Aggregator := ⟨1, 1, 1, 2, AggregatorState.Idle, 0⟩

/-- A one-edge input window with input dimension 1. -/
def windowEx : InputWindow :=
  ⟨⟨0, 0, 0⟩, [[0]], 0, 0, 1, 1,
   ⟨0, 1, ⟨0, 0, 0⟩, 1, 1, false, false⟩, true⟩

/- ===================== MLP unit (src/src/accelerator/mlp.rs) -/
inductive MlpState where
  | Idle
  | Working
  | Finished
  deriving DecidableEq, Repr

structure Mlp where
  state : MlpState
  remaining_cycle : Nat
  systolic_rows : Nat
  systolic_cols : Nat
  sparse_cores : Nat
  deriving DecidableEq, Repr

/-- `Mlp::start_mlp` (src/src/accelerator/mlp.rs:66-104). The sparse path
(temp result present) charges `2 * total_add * output_dim /
sparse_cores`; the dense path runs the nested systolic-array loop. The
Rust `elements_steps - 1` is usize subtraction; with `output_node_dim
≥ 1` and `systolic_cols ≥ 1` (the hypotheses of the theorems below) no
underflow occurs and `Nat` subtraction agrees. -/
def Mlp.start_mlp (m : Mlp) (output_window : OutputWindow)
    (output_results : Option (List (Finset Nat))) : Mlp :=
  match output_results with
  | some rs =>
      let total_add := (rs.map Finset.card).sum
      { m with state := MlpState.Working,
               remaining_cycle :=
                 total_add * output_window.output_node_dim / m.sparse_cores * 2 }
  | none =>
      let num_nodes := output_window.get_output_len
      let steps := (m.systolic_rows + num_nodes - 1) / m.systolic_rows
      let elements_steps :=
        (output_window.output_node_dim + m.systolic_cols - 1) / m.systolic_cols
      let total_cycles :=
        (List.range steps).foldl (fun acc _ =>
          (List.range (elements_steps - 1)).foldl (fun acc2 _ =>
            acc2 + (m.systolic_rows + m.systolic_cols
                      + output_window.input_node_dim)
                 + m.systolic_rows * m.systolic_rows / 4 / 32) acc) 0
      { m with state := MlpState.Working, remaining_cycle := total_cycles }

/- ===== Sparse multi-output cost (`Aggregator::get_add_sparse_cycle`,
   src/src/accelerator/aggregator.rs:174-196) -/

/-- One iteration of the core-assignment loop: sort the per-core cycle
vector ascending (`sort_unstable`; sorting of naturals is canonical, so
`insertionSort` produces the identical list) and add the task's cost to
the first (least-loaded) entry. An empty core vector corresponds to
`sparse_cores = 0`, where the Rust indexing `core_cycles[0]` panics;
theorems below require at least one core. -/
def lptStep (loads : List Nat) (c : Nat) : List Nat :=
  match List.insertionSort (· ≤ ·) loads with
  | [] => []
  | h :: t => (h + c) :: t

/-- `Aggregator::get_add_sparse_cycle`: per-task costs are computed in
order by `get_add_cycle_and_result_sparse` (mutating the per-output
slots, here returned as the second component), each cost is pushed onto
the least-loaded core, and the reported cycle count is the largest final
core load (`last` of the sorted vector, 0 if there are no cores). -/
def Aggregator.get_add_sparse_cycle (a : Aggregator) (tasks : List (List Nat))
    (output_features : List (Finset Nat)) (nf : NodeFeatures) :
    Nat × List (Finset Nat) :=
  let results := (tasks.zip output_features).map
    (fun p => get_add_cycle_and_result_sparse nf p.2 p.1)
  let cycle_vec := results.map Prod.fst
  let core_cycles := cycle_vec.foldl lptStep (List.replicate a.sparse_cores 0)
  ((List.insertionSort (· ≤ ·) core_cycles).getLastD 0, results.map Prod.snd)

/-- The least-loaded core's current load (spec side). -/
def minLoad : List Nat → Nat
  | [] => 0
  | x :: xs => xs.foldl min x

/-- Add `c` to the first occurrence of `m` (spec side). -/
def addToMin (m c : Nat) : List Nat → List Nat
  | [] => []
  | x :: xs => if x = m then (x + c) :: xs else x :: addToMin m c xs

/-- Spec-side assignment: give the cost to a currently least-loaded core. -/
def minAssign (loads : List Nat) (c : Nat) : List Nat :=
  addToMin (minLoad loads) c loads

/-- Spec-side reported cycles: assign the per-output-node costs in order,
each to the currently least-loaded of `cores` cores; report the maximum
final core load. -/
def specLpt (cores : Nat) (costs : List Nat) : Nat :=
  (costs.foldl minAssign (List.replicate cores 0)).foldr max 0

/-- The aggregator used in scenario S4: 2 sparse cores. -/
def aggS4 : Aggregator := ⟨2, 1, 1, 1, AggregatorState.Idle, 0⟩

/- ============== Graph (src/src/graph.rs) -/

/-- Embedding of `Graph`: `csc[i]` is the list of in-neighbors of node `i`
(a `BTreeSet` in the source; the embedded operations read it through
membership and range filtering, for which the list order is
irrelevant). -/
structure Graph where
  csc : List (List Nat)
  feature_size : Nat
  deriving DecidableEq, Repr

def Graph.num_node (g : Graph) : Nat := g.csc.length

/-- `csr[i]` as generated by `Graph::generate_csr`: the nodes `j` whose
in-neighbor set contains `i`. -/
def Graph.csr_row (g : Graph) (i : Nat) : List Nat :=
  (List.range g.num_node).filter (fun j => (g.csc.getD j []).contains i)

/-- `Graph::is_row_range_empty i start end`: whether
`csr[i].range(start..end)` is empty. -/
def Graph.is_row_range_empty (g : Graph) (i s e : Nat) : Bool :=
  ((g.csr_row i).filter (fun j => decide (s ≤ j) && decide (j < e))).isEmpty

/- ======= Sliding-window iterators (src/src/accelerator/sliding_window.rs) -/

/-- The row-skipping loop of `InputWindowIterator::next`
(src/src/accelerator/sliding_window.rs:261-275) and, with a different
start index, the `is_last_row` scan (lines 356-374): advance `i` while
it is below the node count and row `i`'s projection on the output range
is empty. The fuel `g.num_node - i` bounds the iteration count. -/
def skipEmptyAux (g : Graph) (so eo : Nat) : Nat → Nat → Nat
  | 0, i => i
  | fuel + 1, i =>
      if i < g.num_node ∧ g.is_row_range_empty i so eo = true then
        skipEmptyAux g so eo fuel (i + 1)
      else i

def skipEmpty (g : Graph) (so eo i : Nat) : Nat :=
  skipEmptyAux g so eo (g.num_node - i) i

/-- The greedy accumulation loop (lines 280-309): add input rows while the
accumulated byte size (4 bytes per stored feature index) stays within
`half` = half the input-buffer capacity. -/
def accumulateLenAux (nf : NodeFeatures) (half n start : Nat) :
    Nat → Nat → Nat → Nat
  | 0, _, x_len => x_len
  | fuel + 1, x_size, x_len =>
      if x_size < half ∧ start + x_len < n then
        if half < x_size + (nf.get_features (start + x_len)).length * 4 then x_len
        else accumulateLenAux nf half n start fuel
          (x_size + (nf.get_features (start + x_len)).length * 4) (x_len + 1)
      else x_len

def accumulateLen (nf : NodeFeatures) (half n start : Nat) : Nat :=
  accumulateLenAux nf half n start (n - start) 0 0

/-- The right-shrinking loop (lines 315-328): decrement the end index while
the row just below it has an empty projection. The `0` case is the
usize-underflow panic of `end - 1`, unreachable because the window
starts at a non-empty row. -/
def shrinkEnd (g : Graph) (so eo : Nat) : Nat → Nat
  | 0 => 0
  | e + 1 =>
      if g.is_row_range_empty e so eo = true then shrinkEnd g so eo e else e + 1

/-- The inner iterator's mutable state (struct `InputWindowIterator`; the
graph, feature and hidden-size references are passed to `next`
explicitly). -/
structure InputWindowIterator where
  task_id : WindowId
  input_buffer_size : Nat
  start_output_index : Nat
  end_output_index : Nat
  current_window_start_input_index : Nat
  current_window_end_input_index : Nat
  final_iter : Bool
  final_layer : Bool
  deriving DecidableEq, Repr

inductive InputNextResult where
  | done
  | fail
  | yield (w : InputWindow) (it : InputWindowIterator)
  deriving DecidableEq, Repr

/-- The start row after skipping initially-empty rows (lines 261-275). -/
def nextS0 (g : Graph) (it : InputWindowIterator) : Nat :=
  skipEmpty g it.start_output_index it.end_output_index
    it.current_window_start_input_index

/-- The number of accumulated rows `x_len` (lines 280-309). -/
def nextXLen (g : Graph) (nf : NodeFeatures) (it : InputWindowIterator) : Nat :=
  accumulateLen nf (it.input_buffer_size / 2) g.num_node (nextS0 g it)

/-- `next_start_row` after the `is_last_row` scan (lines 356-374); it is
also the start index stored for the next iteration (line 399). -/
def nextNsr (g : Graph) (nf : NodeFeatures) (it : InputWindowIterator) : Nat :=
  skipEmpty g it.start_output_index it.end_output_index
    (nextS0 g it + nextXLen g nf it)

/-- `current_window_end_input_index` after shrinking (lines 315-328). -/
def nextEnd (g : Graph) (nf : NodeFeatures) (it : InputWindowIterator) : Nat :=
  shrinkEnd g it.start_output_index it.end_output_index
    (nextS0 g it + nextXLen g nf it)

/-- The `InputWindow` built at lines 330-396: per output node the CSC
range restricted to the input interval, the shared `OutputWindow`, and
`is_last_row` = no further row of the outer range is non-empty. -/
def nextWindow (g : Graph) (nf : NodeFeatures) (gcn_hidden_size : List Nat)
    (it : InputWindowIterator) : InputWindow :=
  { task_id := it.task_id,
    tasks := (List.range' it.start_output_index
        (it.end_output_index - it.start_output_index)).map
      (fun i => (g.csc.getD i []).filter
        (fun x => decide (nextS0 g it ≤ x) && decide (x < nextEnd g nf it))),
    start_output_index := it.start_output_index,
    start_input_index := nextS0 g it,
    end_output_index := it.end_output_index,
    end_input_index := nextEnd g nf it,
    output_window :=
      { start_output_index := it.start_output_index,
        end_output_index := it.end_output_index,
        task_id := it.task_id,
        output_node_dim :=
          if it.final_layer then 1 else gcn_hidden_size.getD it.task_id.layer_id 0,
        input_node_dim :=
          match it.task_id.layer_id with
          | 0 => g.feature_size
          | l + 1 => gcn_hidden_size.getD l 0,
        final_window := it.final_iter,
        final_layer := it.final_layer },
    is_last_row := decide (nextNsr g nf it = g.num_node) }

/-- The iterator state prepared for the following call (lines 398-401). -/
def nextState (g : Graph) (nf : NodeFeatures) (it : InputWindowIterator) :
    InputWindowIterator :=
  { it with
      current_window_start_input_index := nextNsr g nf it,
      current_window_end_input_index := nextEnd g nf it,
      task_id := { it.task_id with input_id := it.task_id.input_id + 1 } }

/-- `InputWindowIterator::next`
(src/src/accelerator/sliding_window.rs:255-404). `fail` is the
`x_len == 0` panic (the first remaining row alone exceeds half the
input buffer). -/
def InputWindowIterator.next (g : Graph) (nf : NodeFeatures)
    (gcn_hidden_size : List Nat) (it : InputWindowIterator) : InputNextResult :=
  if g.num_node ≤ it.current_window_start_input_index then InputNextResult.done
  else if nextS0 g it = g.num_node then InputNextResult.done
  else if nextXLen g nf it = 0 then InputNextResult.fail
  else InputNextResult.yield (nextWindow g nf gcn_hidden_size it)
    (nextState g nf it)

/-- The full (finite) sequence of windows an inner iterator yields:
`none` when the iteration panics or the fuel is insufficient; any fuel
larger than the node count is sufficient. -/
def collectWindows (g : Graph) (nf : NodeFeatures) (gcn_hidden_size : List Nat) :
    Nat → InputWindowIterator → Option (List InputWindow)
  | 0, _ => none
  | fuel + 1, it =>
      match it.next g nf gcn_hidden_size with
      | InputNextResult.done => some []
      | InputNextResult.fail => none
      | InputNextResult.yield w it' =>
          (collectWindows g nf gcn_hidden_size fuel it').map (w :: ·)

/-- The outer iterator's mutable state (struct `OutputWindowIterator`). -/
structure OutputWindowIterator where
  agg_buffer_size : Nat
  input_buffer_size : Nat
  current_start_output_index : Nat
  task_id : WindowId
  final_layer : Bool
  deriving DecidableEq, Repr

/-- `output_size` as computed by `OutputWindowIterator::next`
(src/src/accelerator/sliding_window.rs:154-171): the buffer-capacity
division for layer 0, and `gcn_hidden_size[layer - 1]` taken directly
for every later layer. -/
def outputSize (g : Graph) (gcn_hidden_size : List Nat)
    (agg_buffer_size layer : Nat) : Nat :=
  match layer with
  | 0 => (agg_buffer_size / 2) / (g.feature_size * 4)
  | l + 1 => gcn_hidden_size.getD l 0

inductive OutputNextResult where
  | done
  | fail
  | yield (inner : InputWindowIterator) (it : OutputWindowIterator)
  deriving DecidableEq, Repr

/-- `OutputWindowIterator::next`
(src/src/accelerator/sliding_window.rs:144-206); `fail` is the
`output_size == 0` panic. -/
def OutputWindowIterator.next (g : Graph) (gcn_hidden_size : List Nat)
    (it : OutputWindowIterator) : OutputNextResult :=
  if g.num_node ≤ it.current_start_output_index then OutputNextResult.done
  else if outputSize g gcn_hidden_size it.agg_buffer_size it.task_id.layer_id = 0
    then OutputNextResult.fail
  else OutputNextResult.yield
    { task_id := it.task_id,
      input_buffer_size := it.input_buffer_size,
      start_output_index := it.current_start_output_index,
      end_output_index :=
        min (it.current_start_output_index
              + outputSize g gcn_hidden_size it.agg_buffer_size it.task_id.layer_id)
            g.num_node,
      current_window_start_input_index := 0,
      current_window_end_input_index := 0,
      final_iter := decide (g.num_node ≤
        min (it.current_start_output_index
              + outputSize g gcn_hidden_size it.agg_buffer_size it.task_id.layer_id)
            g.num_node),
      final_layer := it.final_layer }
    { it with
        current_start_output_index :=
          min (it.current_start_output_index
                + outputSize g gcn_hidden_size it.agg_buffer_size it.task_id.layer_id)
              g.num_node,
        task_id := { it.task_id with output_id := it.task_id.output_id + 1 } }

/-- Projection of the inner iterator out of an outer-iterator yield (the
fallback value is irrelevant: it is only used under a `yield`
hypothesis or on concrete `yield` results). -/
def innerOfNext : OutputNextResult → InputWindowIterator
  | OutputNextResult.yield inner _ => inner
  | _ => ⟨⟨0, 0, 0⟩, 0, 0, 0, 0, 0, false, false⟩

/-- Projection of the advanced outer iterator out of a yield. -/
def outerOfNext : OutputNextResult → OutputWindowIterator
  | OutputNextResult.yield _ it => it
  | _ => ⟨0, 0, 0, ⟨0, 0, 0⟩, false⟩

/-- A 2-node graph whose node 0 has in-neighbor 1 and whose node 1 has no
in-neighbors (graph file `f 1 / 1 / <blank> / end`). -/
def c3Graph : Graph := ⟨[[1], []], 1⟩

/-- One non-zero feature index per node. -/
def c3Features : NodeFeatures := ⟨[[0], [0]]⟩

/-- Layer-0 outer iterator over `c3Graph` with `agg_buffer_size = 8`
(output size 1) and `input_buffer_size = 16`. -/
def c3OuterStart : OutputWindowIterator := ⟨8, 16, 0, ⟨0, 0, 0⟩, true⟩

/-- The inner iterator of the first outer window, covering nodes `[0, 1)`. -/
def c3Inner1 : InputWindowIterator := innerOfNext (c3OuterStart.next c3Graph [])

/-- The inner iterator of the second outer window, covering nodes `[1, 2)`
(a node with no in-neighbors). -/
def c3Inner2 : InputWindowIterator :=
  innerOfNext ((outerOfNext (c3OuterStart.next c3Graph [])).next c3Graph [])

/-- The window list yielded by `c3Inner1`. -/
def c3Ws : List InputWindow :=
  (collectWindows c3Graph c3Features [] 3 c3Inner1).getD []

/-- A 5-node graph with feature size 2 (edges irrelevant to the outer
iterator). -/
def c4Graph : Graph := ⟨[[], [], [], [], []], 2⟩

/-- A layer-1 outer iterator with `agg_buffer_size = 64`. -/
def c4Iter : OutputWindowIterator := ⟨64, 64, 0, ⟨1, 0, 0⟩, true⟩

/- ============== Memory addresses (src/src/accelerator/system.rs) -/

/-- The `while start_addr < end_addr { addr_vec.push(start_addr);
start_addr += 64 }` loops of `System::handle_input_buffer_to_mem` and
`System::handle_start_writeback`; the fuel `e - s` bounds the number of
iterations (each advances by 64 ≥ 1). -/
def addrRangeAux : Nat → Nat → Nat → List Nat
  | 0, _, _ => []
  | fuel + 1, s, e => if s < e then s :: addrRangeAux fuel (s + 64) e else []

def addrRange (s e : Nat) : List Nat := addrRangeAux (e - s) s e

/-- Sparse-mode read address generator
(src/src/accelerator/system.rs:472-490): the feature start address of
the window's first input node, rounded down to a multiple of 64,
stepping by 64 up to the end node's start address. -/
def sparseReadAddrs (nf : NodeFeatures) (s e : Nat) : List Nat :=
  addrRange (nf.start_addr s / 64 * 64) (nf.start_addr e)

/-- Dense-mode read address generator
(src/src/accelerator/system.rs:491-510): `layer * 0x10000000 +
node_index * input_dim * 4`, with NO rounding to 64. -/
def denseReadAddrs (layer input_dim s e : Nat) : List Nat :=
  addrRange (layer * 0x10000000 + s * input_dim * 4)
    (layer * 0x10000000 + e * input_dim * 4)

/-- Write-back address generator
(src/src/accelerator/system.rs:770-783): next layer's feature start
addresses, rounded down to 64. -/
def writebackAddrs (nf : NodeFeatures) (s e : Nat) : List Nat :=
  addrRange (nf.start_addr s / 64 * 64) (nf.start_addr e)

/-- The read-path alignment assertion of `MemInterface::cycle`
(src/src/accelerator/mem_interface.rs:74-78): when this is false the
`panic!("addr should be 64 aligned")` abort branch fires. -/
def readAddrsAligned (addrs : List Nat) : Bool :=
  addrs.all (fun a => a % 64 == 0)

theorem foldl_sparseAddStep (nf : NodeFeatures) (nodes : List Nat) :
    ∀ (c : Nat) (S : Finset Nat),
      nodes.foldl (sparseAddStep nf) (c, S)
        = (c + specSparseCost nf S nodes, S ∪ featureUnion nf nodes) := by
  induction nodes with
  | nil => intro c S; simp [specSparseCost, featureUnion]
  | cons s rest ih =>
      intro c S
      simp only [List.foldl_cons, sparseAddStep, specSparseCost, featureUnion]
      rw [ih]
      refine Prod.ext ?_ ?_
      · simp [Nat.add_assoc]
      · simp [Finset.union_assoc]

/-- C1: in Sparse mode the per-output-node aggregation visits the window's
source nodes in order, charging `|S| + |features(s)|` cycles per source
node while unioning `features(s)` into the running partial set `S`; the
slot ends up holding exactly the set union. On the S3 scenario
(features rows `{2,4}, {0,3,4,5}, {0,1,5}`, input nodes `{0,1}`,
initial partial set `{0,3,5}`) the cost is 14 cycles and the final set
is `{0,2,3,4,5}`. -/
theorem aggregator_sparse_single_output_cost :
    (∀ (nf : NodeFeatures) (S : Finset Nat) (nodes : List Nat),
        get_add_cycle_and_result_sparse nf S nodes
          = (specSparseCost nf S nodes, S ∪ featureUnion nf nodes))
    ∧ get_add_cycle_and_result_sparse s3Features ({0, 3, 5} : Finset Nat)
        [0, 1]
        = (14, ({0, 2, 3, 4, 5} : Finset Nat)) := by
  constructor
  · intro nf S nodes
    simpa using foldl_sparseAddStep nf nodes 0 S
  · decide

/-- C10: `Sparsifier::add_task` always sets the remaining cycle count to 10
and the state to Working, independently of its arguments and of the
configured core count (two sparsifiers given different arguments and
core counts end in the same latency-relevant state), and
`add_task_last_layer` always sets the remaining cycle count to 1; the
sparsifier's latency never depends on `sparsifier_cores` or on the
window's contents. -/
theorem sparsifier_latency_constant :
    ∀ (s₁ s₂ : Sparsifier) (d₁ n₁ d₂ n₂ : Nat) (f₁ f₂ : NodeFeatures),
      (s₁.add_task d₁ n₁ f₁).remaining_cycle = 10
      ∧ (s₁.add_task d₁ n₁ f₁).state = SparsifierState.Working
      ∧ (s₁.add_task d₁ n₁ f₁).remaining_cycle
          = (s₂.add_task d₂ n₂ f₂).remaining_cycle
      ∧ (s₁.add_task d₁ n₁ f₁).state = (s₂.add_task d₂ n₂ f₂).state
      ∧ s₁.add_task_last_layer.remaining_cycle = 1
      ∧ s₁.add_task_last_layer.state = SparsifierState.Working := by
  intro s₁ s₂ d₁ n₁ d₂ n₂ f₁ f₂
  simp [Sparsifier.add_task, Sparsifier.add_task_last_layer]

/-- C9 counterexample: with the send queue at capacity (`available()` is
false), `MemInterface::send` is not a no-op — it still appends to the
send queue. -/
theorem mem_send_not_noop_when_full :
    memIfFull.available = false
    ∧ (memIfFull.send 1 [64] false).send_queue ≠ memIfFull.send_queue := by
  decide

/-- C9 amended: `MemInterface::send` always appends the request to the send
queue — even when `available()` is false — and leaves the receive queue
and both in-flight maps unchanged; respecting `available()` is the
caller's obligation, not enforced by `send`. -/
theorem mem_send_always_enqueues :
    ∀ (m : MemInterface Nat) (id : Nat) (av : List Nat) (w : Bool),
      (m.send id av w).send_queue = m.send_queue ++ [⟨av, id, w⟩]
      ∧ (m.send id av w).recv_queue = m.recv_queue
      ∧ (m.send id av w).current_waiting_request = m.current_waiting_request
      ∧ (m.send id av w).current_waiting_mem_request
          = m.current_waiting_mem_request := by
  intro m id av w
  simp [MemInterface.send]

/-- C5: the input buffer's `cycle` swaps its two slots (state and payload
together) iff `current` is Empty and `next` is non-Empty, while the
agg, sparsify and output buffers swap iff `current` is in its waiting
state (WaitingToMlp, WaitingToSparsify, WaitingToWriteBack) and `next`
is Empty; in every other configuration `cycle` is the identity on both
slots' states and payloads. -/
theorem stage_buffer_cycle_swaps {α β : Type} :
    (∀ b : InputBuffer α,
      b.cycle = if b.current_state = InputBufferStatus.Empty
                   ∧ b.next_state ≠ InputBufferStatus.Empty
        then { current_state := b.next_state, next_state := b.current_state,
               current_window := b.next_window, next_window := b.current_window }
        else b)
    ∧ (∀ b : AggBuffer α β,
      b.cycle = if b.current_state = AggBufferStatus.WaitingToMlp
                   ∧ b.next_state = AggBufferStatus.Empty
        then { current_state := b.next_state, next_state := b.current_state,
               current_window := b.next_window, next_window := b.current_window,
               current_temp_result := b.next_temp_result,
               next_temp_result := b.current_temp_result }
        else b)
    ∧ (∀ b : SparsifyBuffer α,
      b.cycle = if b.current_state = SparsifyBufferStatus.WaitingToSparsify
                   ∧ b.next_state = SparsifyBufferStatus.Empty
        then { current_state := b.next_state, next_state := b.current_state,
               current_window := b.next_window, next_window := b.current_window }
        else b)
    ∧ (∀ b : OutputBuffer α,
      b.cycle = if b.current_state = OutputBufferStatus.WaitingToWriteBack
                   ∧ b.next_state = OutputBufferStatus.Empty
        then { current_state := b.next_state, next_state := b.current_state,
               current_window := b.next_window, next_window := b.current_window }
        else b) := by
  refine ⟨?_, ?_, ?_, ?_⟩
  · rintro ⟨cs, ns, cw, nw⟩
    cases cs <;> cases ns <;> simp [InputBuffer.cycle]
  · rintro ⟨cs, ns, cw, nw, ct, nt⟩
    cases cs <;> cases ns <;> simp [AggBuffer.cycle]
  · rintro ⟨cs, ns, cw, nw⟩
    cases cs <;> cases ns <;> simp [SparsifyBuffer.cycle]
  · rintro ⟨cs, ns, cw, nw⟩
    cases cs <;> cases ns <;> simp [OutputBuffer.cycle]

/-- C6 counterexample: in Dense mode with 1 edge, input dimension 1, 1
dense core of width 2, the code assigns `2 * (1 * 1 / 2) = 0` cycles,
not the claimed `2 * ceil(1 * 1 / 2) = 2`. -/
theorem aggregator_dense_not_ceiling :
    (aggEx.add_task_dense windowEx).current_task_remaining_cycles = 0
    ∧ 2 * ((((windowEx.tasks.map List.length).sum
            * windowEx.output_window.input_node_dim)
          + aggEx.dense_cores * aggEx.dense_width - 1)
         / (aggEx.dense_cores * aggEx.dense_width)) = 2
    ∧ (0 : Nat) ≠ 2 := by
  decide

/-- C6 amended: in Dense mode, `Aggregator::add_task` assigns
`2 * ⌊(total edges × input_dim) / (dense_cores × dense_width)⌋`
cycles — floor division, not ceiling — and sets the state to Working. -/
theorem aggregator_dense_cycles (a : Aggregator) (task : InputWindow)
    (h : 0 < a.dense_cores * a.dense_width) :
    (a.add_task_dense task).current_task_remaining_cycles
      = 2 * (((task.tasks.map List.length).sum
                * task.output_window.input_node_dim)
             / (a.dense_cores * a.dense_width))
    ∧ (a.add_task_dense task).state = AggregatorState.Working := by
  unfold Aggregator.add_task_dense
  refine ⟨?_, rfl⟩
  simp [Nat.mul_comm a.dense_width a.dense_cores, Nat.mul_comm]

/-- Witness for `aggregator_dense_cycles` at a concrete input. -/
theorem aggregator_dense_cycles_witness :
    0 < aggEx.dense_cores * aggEx.dense_width
    ∧ (aggEx.add_task_dense windowEx).current_task_remaining_cycles
        = 2 * (((windowEx.tasks.map List.length).sum
                  * windowEx.output_window.input_node_dim)
               / (aggEx.dense_cores * aggEx.dense_width)) :=
  ⟨by decide, (aggregator_dense_cycles aggEx windowEx (by decide)).1⟩

theorem foldl_const_add {β : Type} (k : Nat) (l : List β) :
    ∀ c : Nat, l.foldl (fun acc (_ : β) => acc + k) c = c + l.length * k := by
  induction l with
  | nil => intro c; simp
  | cons x xs ih =>
      intro c
      simp only [List.foldl_cons, List.length_cons, ih]
      ring

theorem foldl_const_add2 {β : Type} (k₁ k₂ : Nat) (l : List β) :
    ∀ c : Nat, l.foldl (fun acc (_ : β) => acc + k₁ + k₂) c
      = c + l.length * (k₁ + k₂) := by
  induction l with
  | nil => intro c; simp
  | cons x xs ih =>
      intro c
      simp only [List.foldl_cons, List.length_cons, ih]
      ring

theorem mlp_dense_loop_closed (steps inner k₁ k₂ : Nat) :
    (List.range steps).foldl (fun acc _ =>
        (List.range inner).foldl (fun acc2 _ => acc2 + k₁ + k₂) acc) 0
      = steps * inner * (k₁ + k₂) := by
  have hfun : (fun (acc : Nat) (_ : Nat) =>
        (List.range inner).foldl (fun acc2 _ => acc2 + k₁ + k₂) acc)
      = fun acc _ => acc + inner * (k₁ + k₂) := by
    funext a b
    simpa using foldl_const_add2 k₁ k₂ (List.range inner) a
  rw [hfun]
  have := foldl_const_add (β := Nat) (inner * (k₁ + k₂)) (List.range steps) 0
  simpa [Nat.mul_assoc] using this

/-- C7: on the dense path, `Mlp::start_mlp` assigns
`steps * (col_steps - 1) * (rows + cols + input_dim + rows^2 / 128)`
cycles, where `steps = ⌈output_len / rows⌉` and
`col_steps = ⌈output_dim / cols⌉`; consequently the cost is 0 whenever
the output dimension is at most `systolic_cols`. -/
theorem mlp_dense_cycle_formula (m : Mlp) (w : OutputWindow)
    (hrows : 0 < m.systolic_rows) (hcols : 0 < m.systolic_cols)
    (hdim : 0 < w.output_node_dim) :
    (m.start_mlp w none).remaining_cycle
      = ((w.get_output_len + m.systolic_rows - 1) / m.systolic_rows)
        * ((w.output_node_dim + m.systolic_cols - 1) / m.systolic_cols - 1)
        * (m.systolic_rows + m.systolic_cols + w.input_node_dim
             + m.systolic_rows ^ 2 / 128)
    ∧ (w.output_node_dim ≤ m.systolic_cols →
        (m.start_mlp w none).remaining_cycle = 0) := by
  have hsq : m.systolic_rows * m.systolic_rows / 4 / 32
      = m.systolic_rows ^ 2 / 128 := by
    rw [Nat.div_div_eq_div_mul, pow_two]
  have hmain : (m.start_mlp w none).remaining_cycle
      = ((m.systolic_rows + w.get_output_len - 1) / m.systolic_rows)
        * ((w.output_node_dim + m.systolic_cols - 1) / m.systolic_cols - 1)
        * (m.systolic_rows + m.systolic_cols + w.input_node_dim
             + m.systolic_rows * m.systolic_rows / 4 / 32) := by
    simp only [Mlp.start_mlp]
    exact mlp_dense_loop_closed _ _ _ _
  constructor
  · rw [hmain, hsq, Nat.add_comm m.systolic_rows w.get_output_len]
  · intro hle
    have hsteps : (w.output_node_dim + m.systolic_cols - 1) / m.systolic_cols = 1 := by
      have h1 : w.output_node_dim + m.systolic_cols - 1 < 2 * m.systolic_cols := by
        omega
      have h2 : m.systolic_cols ≤ w.output_node_dim + m.systolic_cols - 1 := by
        omega
      have hlt := Nat.div_lt_of_lt_mul (by omega :
        w.output_node_dim + m.systolic_cols - 1 < m.systolic_cols * 2)
      have hge := Nat.one_le_div_iff hcols |>.mpr h2
      omega
    rw [hmain, hsteps]
    simp

/-- Witness for `mlp_dense_cycle_formula`: a 2×2 systolic array, a
3-node output window with output dimension 4 and input dimension 6. -/
theorem mlp_dense_cycle_formula_witness :
    (0 : Nat) < 2 ∧
    (Mlp.start_mlp ⟨MlpState.Idle, 0, 2, 2, 2⟩
        ⟨0, 3, ⟨0, 0, 0⟩, 4, 6, false, false⟩ none).remaining_cycle
      = (((3 : Nat) + 2 - 1) / 2) * ((4 + 2 - 1) / 2 - 1) * (2 + 2 + 6 + 2 ^ 2 / 128) := by
  refine ⟨by decide, ?_⟩
  have h := (mlp_dense_cycle_formula ⟨MlpState.Idle, 0, 2, 2, 2⟩
      ⟨0, 3, ⟨0, 0, 0⟩, 4, 6, false, false⟩ (by decide) (by decide) (by decide)).1
  simpa [OutputWindow.get_output_len] using h

theorem foldl_min_le (x : Nat) (xs : List Nat) :
    xs.foldl min x ≤ x ∧ ∀ a ∈ xs, xs.foldl min x ≤ a := by
  induction xs generalizing x with
  | nil => simp
  | cons y ys ih =>
      obtain ⟨h1, h2⟩ := ih (min x y)
      refine ⟨le_trans h1 (Nat.min_le_left x y), ?_⟩
      intro a ha
      rcases List.mem_cons.mp ha with rfl | ha
      · exact le_trans h1 (Nat.min_le_right x a)
      · exact h2 a ha

theorem foldl_min_mem (x : Nat) (xs : List Nat) :
    xs.foldl min x = x ∨ xs.foldl min x ∈ xs := by
  induction xs generalizing x with
  | nil => simp
  | cons y ys ih =>
      rcases ih (min x y) with h | h
      · rcases Nat.le_total x y with hxy | hxy
        · left; simp only [List.foldl_cons]; rw [h, Nat.min_eq_left hxy]
        · right
          simp only [List.foldl_cons]
          rw [h, Nat.min_eq_right hxy]
          exact List.mem_cons_self y ys
      · right; exact List.mem_cons_of_mem y h

theorem minLoad_spec (l : List Nat) (hne : l ≠ []) :
    minLoad l ∈ l ∧ ∀ a ∈ l, minLoad l ≤ a := by
  match l with
  | [] => exact absurd rfl hne
  | x :: xs =>
      obtain ⟨h1, h2⟩ := foldl_min_le x xs
      constructor
      · rcases foldl_min_mem x xs with h | h
        · rw [minLoad, h]; exact List.mem_cons_self x xs
        · exact List.mem_cons_of_mem x h
      · intro a ha
        rcases List.mem_cons.mp ha with rfl | ha
        · exact h1
        · exact h2 a ha

theorem addToMin_perm (m c : Nat) (s : List Nat) (hm : m ∈ s) :
    List.Perm (addToMin m c s) ((m + c) :: s.erase m) := by
  induction s with
  | nil => cases hm
  | cons x xs ih =>
      by_cases hx : x = m
      · subst hx
        simp [addToMin, List.erase_cons_head]
      · have hm' : m ∈ xs := by
          rcases List.mem_cons.mp hm with h | h
          · exact absurd h.symm hx
          · exact h
        have herase : (x :: xs).erase m = x :: xs.erase m := by
          simp [List.erase_cons, hx]
        simp only [addToMin, if_neg hx, herase]
        exact ((ih hm').cons x).trans (List.Perm.swap _ _ _)

theorem lptStep_perm_minAssign (l s : List Nat) (c : Nat)
    (hp : List.Perm l s) : List.Perm (lptStep l c) (minAssign s c) := by
  rcases hsnil : s with _ | ⟨y, ys⟩
  · have hl : l = [] := List.Perm.eq_nil (hsnil ▸ hp)
    subst hl
    simp [lptStep, minAssign, addToMin, minLoad, List.insertionSort]
  · rw [← hsnil]
    have hsne : s ≠ [] := by rw [hsnil]; exact List.cons_ne_nil y ys
    have hlne : l ≠ [] := by
      intro h
      apply hsne
      have hlen := hp.length_eq
      rw [h] at hlen
      exact List.length_eq_zero.mp hlen.symm
    have hperm : List.Perm (List.insertionSort (· ≤ ·) l) l :=
      List.perm_insertionSort _ l
    have hsorted : List.Sorted (· ≤ ·) (List.insertionSort (· ≤ ·) l) :=
      List.sorted_insertionSort _ l
    rcases hins : List.insertionSort (· ≤ ·) l with _ | ⟨h, t⟩
    · exfalso
      apply hlne
      have hlen := hperm.length_eq
      rw [hins] at hlen
      exact List.length_eq_zero.mp hlen.symm
    · rw [hins] at hperm hsorted
      obtain ⟨hmmem, hmle⟩ := minLoad_spec s hsne
      have hhl : h ∈ l := hperm.subset (List.mem_cons_self h t)
      have hhs : h ∈ s := hp.subset hhl
      have hml : minLoad s ∈ l := hp.symm.subset hmmem
      have hhm : h = minLoad s := by
        have h1 : minLoad s ≤ h := hmle h hhs
        have h2 : h ≤ minLoad s := by
          rcases List.mem_cons.mp (hperm.symm.subset hml) with he | ht
          · exact le_of_eq he.symm
          · exact List.rel_of_sorted_cons hsorted _ ht
        exact Nat.le_antisymm h2 h1
      have hstep : lptStep l c = (h + c) :: t := by
        simp [lptStep, hins]
      have ht : List.Perm t (s.erase (minLoad s)) := by
        have h1 : List.Perm ((h :: t).erase h) (l.erase h) := hperm.erase h
        rw [List.erase_cons_head] at h1
        rw [hhm] at h1
        exact h1.trans (hp.erase (minLoad s))
      rw [hstep, hhm]
      exact ((ht.cons (minLoad s + c)).trans
        (addToMin_perm (minLoad s) c s hmmem).symm)

theorem foldl_lptStep_perm (costs : List Nat) :
    ∀ l s, List.Perm l s →
      List.Perm (costs.foldl lptStep l) (costs.foldl minAssign s) := by
  induction costs with
  | nil => intro l s hp; simpa using hp
  | cons c rest ih =>
      intro l s hp
      simp only [List.foldl_cons]
      exact ih _ _ (lptStep_perm_minAssign l s c hp)

theorem foldr_max_perm (l s : List Nat) (hp : List.Perm l s) :
    l.foldr max 0 = s.foldr max 0 := by
  induction hp with
  | nil => rfl
  | cons x _ ih => simp [ih]
  | swap x y l => simp [← Nat.max_assoc, Nat.max_comm y x]
  | trans _ _ ih1 ih2 => exact ih1.trans ih2

theorem sorted_foldr_max_getLast? :
    ∀ (l : List Nat), List.Sorted (· ≤ ·) l →
      ∀ x, l.getLast? = some x → l.foldr max 0 = x ∧ x ∈ l := by
  intro l
  induction l with
  | nil => intro _ x hx; cases hx
  | cons y ys ih =>
      intro hs x hx
      cases ys with
      | nil =>
          have hxy : x = y := by
            simp [List.getLast?] at hx
            omega
          subst hxy
          simp
      | cons z zs =>
          rw [List.getLast?_cons_cons] at hx
          obtain ⟨hfold, hmem⟩ := ih (List.sorted_cons.mp hs).2 x hx
          have hyx : y ≤ x := (List.sorted_cons.mp hs).1 x hmem
          constructor
          · simp only [List.foldr_cons] at hfold ⊢
            rw [hfold]
            exact Nat.max_eq_right hyx
          · exact List.mem_cons_of_mem y hmem

/-- C2: for any Sparse-mode aggregation task, the reported cycle count of
`Aggregator::get_add_sparse_cycle` equals the maximum final core load
obtained by taking the per-output-node costs in order and assigning
each to the currently least-loaded of the sparse cores; on scenario S4
(features of S3, tasks `[{0,1}, {1,2}, {0,1,2}]`, partials
`[{0,3,5}, {0,3,5}, ∅]`, 2 sparse cores) the reported total is 30. -/
theorem aggregator_sparse_multi_lpt :
    (∀ (a : Aggregator) (nf : NodeFeatures) (tasks : List (List Nat))
        (partials : List (Finset Nat)), 0 < a.sparse_cores →
        (a.get_add_sparse_cycle tasks partials nf).1
          = specLpt a.sparse_cores
              ((tasks.zip partials).map (fun p => specSparseCost nf p.2 p.1)))
    ∧ (aggS4.get_add_sparse_cycle [[0, 1], [1, 2], [0, 1, 2]]
        [({0, 3, 5} : Finset Nat), {0, 3, 5}, ∅] s3Features).1 = 30 := by
  constructor
  · intro a nf tasks partials _
    unfold Aggregator.get_add_sparse_cycle specLpt
    have hcosts : ((tasks.zip partials).map
          (fun p => get_add_cycle_and_result_sparse nf p.2 p.1)).map Prod.fst
        = (tasks.zip partials).map (fun p => specSparseCost nf p.2 p.1) := by
      rw [List.map_map]
      refine List.map_congr_left ?_
      intro p _
      show (get_add_cycle_and_result_sparse nf p.2 p.1).1 = _
      rw [get_add_cycle_and_result_sparse, foldl_sparseAddStep]
      simp
    simp only [hcosts]
    set costs := (tasks.zip partials).map (fun p => specSparseCost nf p.2 p.1)
    set L := costs.foldl lptStep (List.replicate a.sparse_cores 0) with hL
    set S := costs.foldl minAssign (List.replicate a.sparse_cores 0) with hS
    have hperm : List.Perm L S :=
      foldl_lptStep_perm costs _ _ (List.Perm.refl _)
    have hsortperm : List.Perm (List.insertionSort (· ≤ ·) L) L :=
      List.perm_insertionSort _ L
    rcases hins : List.insertionSort (· ≤ ·) L with _ | ⟨x, t⟩
    · have hlen := hsortperm.length_eq
      rw [hins] at hlen
      have hLnil : L = [] := List.length_eq_zero.mp hlen.symm
      rw [hLnil] at hperm
      have hSnil : S = [] := hperm.symm.eq_nil
      rw [hSnil]
      simp
    · have hne : (x :: t).getLast? = some ((x :: t).getLast (List.cons_ne_nil x t)) :=
        List.getLast?_eq_getLast _ _
      have hsorted : List.Sorted (· ≤ ·) (x :: t) :=
        hins ▸ List.sorted_insertionSort _ L
      obtain ⟨hfold, _⟩ := sorted_foldr_max_getLast? (x :: t) hsorted _ hne
      rw [List.getLastD_eq_getLast?, hne, Option.getD_some, ← hfold]
      have h1 : (x :: t).foldr max 0 = L.foldr max 0 :=
        foldr_max_perm _ _ (hins ▸ hsortperm)
      have h2 : L.foldr max 0 = S.foldr max 0 := foldr_max_perm _ _ hperm
      rw [h1, h2]
  · decide

/-- Witness for `aggregator_sparse_multi_lpt` at scenario S4's inputs. -/
theorem aggregator_sparse_multi_lpt_witness :
    0 < aggS4.sparse_cores
    ∧ (aggS4.get_add_sparse_cycle [[0, 1], [1, 2], [0, 1, 2]]
        [({0, 3, 5} : Finset Nat), {0, 3, 5}, ∅] s3Features).1
      = specLpt aggS4.sparse_cores
          (([[0, 1], [1, 2], [0, 1, 2]].zip
              [({0, 3, 5} : Finset Nat), {0, 3, 5}, ∅]).map
            (fun p => specSparseCost s3Features p.2 p.1)) :=
  ⟨by decide,
   aggregator_sparse_multi_lpt.1 aggS4 s3Features _ _ (by decide)⟩

theorem skipEmptyAux_ge (g : Graph) (so eo : Nat) :
    ∀ fuel i, i ≤ skipEmptyAux g so eo fuel i := by
  intro fuel
  induction fuel with
  | zero => intro i; simp [skipEmptyAux]
  | succ f ih =>
      intro i
      simp only [skipEmptyAux]
      split
      · exact le_trans (Nat.le_succ i) (ih (i + 1))
      · exact le_refl i

theorem skipEmptyAux_le (g : Graph) (so eo : Nat) :
    ∀ fuel i, i ≤ g.num_node → skipEmptyAux g so eo fuel i ≤ g.num_node := by
  intro fuel
  induction fuel with
  | zero => intro i h; simpa [skipEmptyAux] using h
  | succ f ih =>
      intro i h
      simp only [skipEmptyAux]
      split
      · rename_i hc
        exact ih (i + 1) hc.1
      · exact h

theorem skipEmptyAux_stop (g : Graph) (so eo : Nat) :
    ∀ fuel i, g.num_node - i ≤ fuel →
      skipEmptyAux g so eo fuel i < g.num_node →
      g.is_row_range_empty (skipEmptyAux g so eo fuel i) so eo = false := by
  intro fuel
  induction fuel with
  | zero =>
      intro i hfuel hlt
      simp only [skipEmptyAux] at hlt
      omega
  | succ f ih =>
      intro i hfuel hlt
      simp only [skipEmptyAux] at hlt ⊢
      split
      · rename_i hc
        split at hlt
        · exact ih (i + 1) (by omega) hlt
        · rename_i hc2
          exact absurd hc hc2
      · rename_i hc
        split at hlt
        · rename_i hc2
          exact absurd hc2 hc
        · cases hemp : g.is_row_range_empty i so eo
          · rfl
          · exact absurd ⟨hlt, hemp⟩ hc

theorem skipEmpty_ge (g : Graph) (so eo i : Nat) : i ≤ skipEmpty g so eo i :=
  skipEmptyAux_ge g so eo _ i

theorem skipEmpty_le (g : Graph) (so eo i : Nat) (h : i ≤ g.num_node) :
    skipEmpty g so eo i ≤ g.num_node :=
  skipEmptyAux_le g so eo _ i h

theorem skipEmpty_stop (g : Graph) (so eo i : Nat)
    (h : skipEmpty g so eo i < g.num_node) :
    g.is_row_range_empty (skipEmpty g so eo i) so eo = false :=
  skipEmptyAux_stop g so eo _ i (le_refl _) h

theorem skipEmpty_of_not_empty (g : Graph) (so eo i : Nat)
    (h1 : i < g.num_node) (h2 : g.is_row_range_empty i so eo = false) :
    skipEmpty g so eo i = i := by
  unfold skipEmpty
  have hf : g.num_node - i = (g.num_node - i - 1) + 1 := by omega
  rw [hf]
  simp [skipEmptyAux, h2]

theorem accumulateLenAux_le (nf : NodeFeatures) (half n start : Nat) :
    ∀ fuel x_size x_len, start + x_len ≤ n →
      start + accumulateLenAux nf half n start fuel x_size x_len ≤ n := by
  intro fuel
  induction fuel with
  | zero => intro xs xl h; simpa [accumulateLenAux] using h
  | succ f ih =>
      intro xs xl h
      simp only [accumulateLenAux]
      split
      · rename_i hc
        split
        · exact h
        · exact ih _ (xl + 1) (by omega)
      · exact h

theorem accumulateLen_le (nf : NodeFeatures) (half n start : Nat)
    (h : start ≤ n) : start + accumulateLen nf half n start ≤ n :=
  accumulateLenAux_le nf half n start _ 0 0 (by omega)

theorem input_next_done_of_ge (g : Graph) (nf : NodeFeatures)
    (hidden : List Nat) (it : InputWindowIterator)
    (h : g.num_node ≤ it.current_window_start_input_index) :
    it.next g nf hidden = InputNextResult.done := by
  unfold InputWindowIterator.next
  rw [if_pos h]

theorem input_next_ne_done (g : Graph) (nf : NodeFeatures)
    (hidden : List Nat) (it : InputWindowIterator)
    (h1 : ¬ g.num_node ≤ it.current_window_start_input_index)
    (h2 : nextS0 g it ≠ g.num_node) :
    it.next g nf hidden ≠ InputNextResult.done := by
  unfold InputWindowIterator.next
  rw [if_neg h1, if_neg h2]
  split <;> simp

theorem input_next_yield_last_iff (g : Graph) (nf : NodeFeatures)
    (hidden : List Nat) (it : InputWindowIterator) (w : InputWindow)
    (it' : InputWindowIterator)
    (h : it.next g nf hidden = InputNextResult.yield w it') :
    (w.is_last_row = true ↔ it'.next g nf hidden = InputNextResult.done) := by
  unfold InputWindowIterator.next at h
  by_cases h1 : g.num_node ≤ it.current_window_start_input_index
  · rw [if_pos h1] at h; cases h
  rw [if_neg h1] at h
  by_cases h2 : nextS0 g it = g.num_node
  · rw [if_pos h2] at h; cases h
  rw [if_neg h2] at h
  by_cases h3 : nextXLen g nf it = 0
  · rw [if_pos h3] at h; cases h
  rw [if_neg h3] at h
  injection h with hw hit
  subst hw
  subst hit
  have hcur : it.current_window_start_input_index ≤ g.num_node := le_of_not_le h1
  have hs0 : nextS0 g it ≤ g.num_node := skipEmpty_le g _ _ _ hcur
  have hxlen : nextS0 g it + nextXLen g nf it ≤ g.num_node :=
    accumulateLen_le nf _ _ _ hs0
  have hnsr : nextNsr g nf it ≤ g.num_node :=
    skipEmpty_le g _ _ _ hxlen
  by_cases hend : nextNsr g nf it = g.num_node
  · constructor
    · intro _
      apply input_next_done_of_ge
      show g.num_node ≤ nextNsr g nf it
      omega
    · intro _
      simp [nextWindow, hend]
  · have hlt : nextNsr g nf it < g.num_node := lt_of_le_of_ne hnsr hend
    have hempty : g.is_row_range_empty (nextNsr g nf it)
        it.start_output_index it.end_output_index = false :=
      skipEmpty_stop g _ _ _ hlt
    have hs0' : nextS0 g (nextState g nf it) = nextNsr g nf it := by
      show skipEmpty g it.start_output_index it.end_output_index
          (nextNsr g nf it) = nextNsr g nf it
      exact skipEmpty_of_not_empty g _ _ _ hlt hempty
    constructor
    · intro hlast
      exfalso
      have : (decide (nextNsr g nf it = g.num_node)) = true := hlast
      simp [hend] at this
    · intro hdone
      exfalso
      refine input_next_ne_done g nf hidden (nextState g nf it) ?_ ?_ hdone
      · show ¬ g.num_node ≤ nextNsr g nf it
        omega
      · rw [hs0']
        exact hend

theorem collect_eq_nil_next_done (g : Graph) (nf : NodeFeatures)
    (hidden : List Nat) (fuel : Nat) (it : InputWindowIterator)
    (h : collectWindows g nf hidden fuel it = some []) :
    it.next g nf hidden = InputNextResult.done := by
  cases fuel with
  | zero => simp [collectWindows] at h
  | succ f =>
      simp only [collectWindows] at h
      rcases hnext : it.next g nf hidden with _ | _ | ⟨w, it'⟩ <;>
        rw [hnext] at h
      · exact absurd h (by simp)
      · exfalso
        rcases Option.map_eq_some'.mp h with ⟨ws', _, hcons⟩
        cases hcons

theorem collect_of_next_done (g : Graph) (nf : NodeFeatures)
    (hidden : List Nat) (fuel : Nat) (it : InputWindowIterator)
    (h : it.next g nf hidden = InputNextResult.done) :
    collectWindows g nf hidden fuel it = none
    ∨ collectWindows g nf hidden fuel it = some [] := by
  cases fuel with
  | zero => left; simp [collectWindows]
  | succ f =>
      right
      simp only [collectWindows, h]

/-- C3 amended: for every inner iterator state (hence for every outer
output window produced by the sliding-window iterator), whenever the
inner iteration terminates without the buffer-overflow panic
(`collectWindows` returns a window list), no non-final yielded
InputWindow has `is_last_row = true`, the final yielded one (if any)
always has `is_last_row = true`, and the number of yielded windows
with `is_last_row = true` is 1 when at least one window is yielded and
0 when none is (an outer window whose node range has no in-edges
yields no InputWindow at all, so "exactly one" fails only in that
zero-yield case). -/
theorem inner_iterator_is_last_row (g : Graph) (nf : NodeFeatures)
    (hidden : List Nat) :
    ∀ (fuel : Nat) (it : InputWindowIterator) (ws : List InputWindow),
      collectWindows g nf hidden fuel it = some ws →
      (∀ w ∈ ws.dropLast, w.is_last_row = false)
      ∧ (∀ w, ws.getLast? = some w → w.is_last_row = true)
      ∧ ws.countP (fun w => w.is_last_row) = (if ws.isEmpty then 0 else 1) := by
  intro fuel
  induction fuel with
  | zero => intro it ws h; simp [collectWindows] at h
  | succ f ih =>
      intro it ws h
      simp only [collectWindows] at h
      rcases hnext : it.next g nf hidden with _ | _ | ⟨w, it'⟩ <;>
        rw [hnext] at h
      · have hws : ws = [] := by
          injection h with h'
          exact h'.symm
        subst hws
        refine ⟨by simp, by simp, by simp⟩
      · simp at h
      · rcases Option.map_eq_some'.mp h with ⟨ws', hws', hcons⟩
        subst hcons
        have hiff := input_next_yield_last_iff g nf hidden it w it' hnext
        obtain ⟨ihdrop, ihlast, ihcount⟩ := ih it' ws' hws'
        cases ws' with
        | nil =>
            have hdone := collect_eq_nil_next_done g nf hidden f it' hws'
            have hlast : w.is_last_row = true := hiff.mpr hdone
            refine ⟨by simp, ?_, by simp [List.countP_cons, hlast]⟩
            intro w' hw'
            simp at hw'
            rw [hw'] at hlast
            exact hlast
        | cons w₂ t =>
            have hnd : it'.next g nf hidden ≠ InputNextResult.done := by
              intro hdone
              rcases collect_of_next_done g nf hidden f it' hdone with hn | hn
              · rw [hn] at hws'; cases hws'
              · rw [hn] at hws'; cases hws'
            have hlastf : w.is_last_row = false := by
              cases hl : w.is_last_row
              · rfl
              · exact absurd (hiff.mp hl) hnd
            refine ⟨?_, ?_, ?_⟩
            · intro w' hw'
              have hdl : (w :: w₂ :: t).dropLast = w :: (w₂ :: t).dropLast := rfl
              rw [hdl] at hw'
              rcases List.mem_cons.mp hw' with rfl | hmem
              · exact hlastf
              · exact ihdrop w' hmem
            · intro w' hw'
              rw [List.getLast?_cons_cons] at hw'
              exact ihlast w' hw'
            · rw [List.countP_cons]
              simp only [hlastf]
              simp only [List.isEmpty_cons] at ihcount ⊢
              simpa using ihcount

/-- C3 counterexample: the outer window `[1, 2)` of `c3Graph` is produced
by the sliding-window iterator, yet its inner iterator terminates
normally yielding no InputWindow at all — so the number of yielded
windows with `is_last_row = true` is 0, not exactly 1. -/
theorem inner_iterator_zero_yield :
    c3Inner2.start_output_index = 1
    ∧ c3Inner2.end_output_index = 2
    ∧ collectWindows c3Graph c3Features [] 3 c3Inner2 = some []
    ∧ ((collectWindows c3Graph c3Features [] 3 c3Inner2).getD []).countP
        (fun w => w.is_last_row) = 0
    ∧ (0 : Nat) ≠ 1 := by
  decide

/-- Witness for `inner_iterator_is_last_row` on the first outer window of
`c3Graph`, which yields one InputWindow. -/
theorem inner_iterator_is_last_row_witness :
    collectWindows c3Graph c3Features [] 3 c3Inner1 = some c3Ws
    ∧ (∀ w, c3Ws.getLast? = some w → w.is_last_row = true)
    ∧ c3Ws.countP (fun w => w.is_last_row) = (if c3Ws.isEmpty then 0 else 1) :=
  ⟨by decide,
   (inner_iterator_is_last_row c3Graph c3Features [] 3 c3Inner1 c3Ws
      (by decide)).2.1,
   (inner_iterator_is_last_row c3Graph c3Features [] 3 c3Inner1 c3Ws
      (by decide)).2.2⟩

/-- C4 counterexample: for a non-first layer the code takes `output_size =
gcn_hidden_size[layer - 1]` directly (here 2), not the claimed
`(agg_buffer_size / 2) / (feature_dimension * 4)` (here
`32 / (2 * 4) = 4`): with hidden sizes `[2]` the first yielded window
ends at node 2, not at node 4. -/
theorem output_iterator_layer1_size :
    (innerOfNext (c4Iter.next c4Graph [2])).end_output_index = 2
    ∧ min (c4Iter.current_start_output_index
          + (c4Iter.agg_buffer_size / 2) / ((2 : Nat) * 4)) c4Graph.num_node = 4
    ∧ (2 : Nat) ≠ 4 := by
  decide

/-- C4 amended: each call of `OutputWindowIterator::next` yields an inner
iterator covering `[cur_start, min(cur_start + output_size, N))` and
advances `cur_start` to that range's end, returning None exactly when
`cur_start ≥ N` — where `output_size` is
`(agg_buffer_size / 2) / (feature_size * 4)` for layer 0 and
`gcn_hidden_size[layer - 1]` (taken directly, not divided into the
buffer) for every later layer. -/
theorem output_iterator_next_range (g : Graph) (hidden : List Nat)
    (it : OutputWindowIterator)
    (hsize : 0 < outputSize g hidden it.agg_buffer_size it.task_id.layer_id) :
    (it.next g hidden = OutputNextResult.done ↔
        g.num_node ≤ it.current_start_output_index)
    ∧ (∀ inner it', it.next g hidden = OutputNextResult.yield inner it' →
        inner.start_output_index = it.current_start_output_index
        ∧ inner.end_output_index
            = min (it.current_start_output_index
                + outputSize g hidden it.agg_buffer_size it.task_id.layer_id)
              g.num_node
        ∧ it'.current_start_output_index = inner.end_output_index) := by
  constructor
  · constructor
    · intro h
      by_contra hlt
      unfold OutputWindowIterator.next at h
      rw [if_neg hlt, if_neg (by omega)] at h
      cases h
    · intro h
      unfold OutputWindowIterator.next
      rw [if_pos h]
  · intro inner it' h
    unfold OutputWindowIterator.next at h
    by_cases h1 : g.num_node ≤ it.current_start_output_index
    · rw [if_pos h1] at h; cases h
    rw [if_neg h1, if_neg (by omega)] at h
    injection h with hi hit
    subst hi
    subst hit
    exact ⟨rfl, rfl, rfl⟩

/-- Witness for `output_iterator_next_range` at the concrete layer-1
iterator. -/
theorem output_iterator_next_range_witness :
    0 < outputSize c4Graph [2] c4Iter.agg_buffer_size c4Iter.task_id.layer_id
    ∧ ((c4Iter.next c4Graph [2] = OutputNextResult.done) ↔
        c4Graph.num_node ≤ c4Iter.current_start_output_index) :=
  ⟨by decide, (output_iterator_next_range c4Graph [2] c4Iter (by decide)).1⟩

theorem addrRangeAux_aligned :
    ∀ fuel s e, s % 64 = 0 → ∀ a ∈ addrRangeAux fuel s e, a % 64 = 0 := by
  intro fuel
  induction fuel with
  | zero => intro s e _ a ha; simp [addrRangeAux] at ha
  | succ f ih =>
      intro s e h a ha
      simp only [addrRangeAux] at ha
      split at ha
      · rcases List.mem_cons.mp ha with rfl | ha
        · exact h
        · exact ih (s + 64) e (by omega) a ha
      · simp at ha

/-- The sparse read path always issues 64-aligned addresses. -/
theorem sparseReadAddrs_aligned (nf : NodeFeatures) (s e : Nat) :
    ∀ a ∈ sparseReadAddrs nf s e, a % 64 = 0 :=
  addrRangeAux_aligned _ _ _ (Nat.mul_mod_left _ 64)

/-- The write-back path always issues 64-aligned addresses. -/
theorem writebackAddrs_aligned (nf : NodeFeatures) (s e : Nat) :
    ∀ a ∈ writebackAddrs nf s e, a % 64 = 0 :=
  addrRangeAux_aligned _ _ _ (Nat.mul_mod_left _ 64)

/-- C8: the dense-mode read address generator is NOT 64-aligned: a window
starting at node 1 with input dimension 3 (layer 0) generates the read
address 12, which fails the memory interface's alignment assertion —
the abort branch is reached. (The sparse and write-back generators do
round down to 64: `sparseReadAddrs_aligned`, `writebackAddrs_aligned`.) -/
theorem dense_read_addrs_unaligned :
    denseReadAddrs 0 3 1 2 = [12]
    ∧ readAddrsAligned (denseReadAddrs 0 3 1 2) = false
    ∧ (12 : Nat) % 64 ≠ 0 := by
  decide

end GcnAgg
